import Mathlib

set_option maxHeartbeats 1000000
set_option maxRecDepth 10000

/-!
Shallow embedding of the fee terminal file explorer (src/main.rs).

File contents are modelled as `List Nat` (byte values, each below 256);
paths as lists of components (`List String`); the filesystem, where an
operation consults it, as an explicit function argument.  The `u16`
fields of the `Fee` struct are modelled as `Nat` together with explicit
`% 65536` reductions at each `as u16` cast, and debug-mode overflow
checks on `+`/`-` are modelled by `Option`-valued checked operations.
-/

/-- Continuation byte test: `0x80 ≤ b ≤ 0xBF`. -/
def isCont (b : Nat) : Bool := 128 ≤ b && b ≤ 191

/-- Allowed second byte of a three-byte sequence whose lead byte is `b`
(`E0`: `A0..BF`, `ED`: `80..9F`, otherwise any continuation byte),
as in core's `run_utf8_validation`. -/
def valid3Second (b c : Nat) : Bool :=
  if b = 224 then 160 ≤ c && c ≤ 191
  else if b = 237 then 128 ≤ c && c ≤ 159
  else isCont c

/-- Allowed second byte of a four-byte sequence whose lead byte is `b`
(`F0`: `90..BF`, `F4`: `80..8F`, otherwise any continuation byte). -/
def valid4Second (b c : Nat) : Bool :=
  if b = 240 then 144 ≤ c && c ≤ 191
  else if b = 244 then 128 ≤ c && c ≤ 143
  else isCont c

/-- Outcome of `std::str::from_utf8` as used by `is_valid_utf8`:
`ok` is `Ok(_)`; `bad` is `Err(e)` with `e.error_len().is_some()`
(a genuinely malformed sequence); `pending v` is `Err(e)` with
`e.error_len() = None` and `e.valid_up_to() = v` (the input ends in
an incomplete multi-byte sequence starting at offset `v`). -/
inductive Utf8Check where
  | ok : Utf8Check
  | bad : Utf8Check
  | pending (validUpTo : Nat) : Utf8Check
deriving DecidableEq, Repr

/-- Shift the `valid_up_to` offset of a validation outcome by `w`
consumed bytes. -/
def addTo (w : Nat) : Utf8Check → Utf8Check
  | .ok => .ok
  | .bad => .bad
  | .pending v => .pending (v + w)

/-- UTF-8 validation of a byte list, mirroring core's
`run_utf8_validation` (the function behind `std::str::from_utf8`). -/
def utf8Check : List Nat → Utf8Check
  | [] => .ok
  | b :: rest =>
    if b < 128 then addTo 1 (utf8Check rest)
    else if 194 ≤ b ∧ b ≤ 223 then
      match rest with
      | [] => .pending 0
      | c :: rest2 => if isCont c then addTo 2 (utf8Check rest2) else .bad
    else if 224 ≤ b ∧ b ≤ 239 then
      match rest with
      | [] => .pending 0
      | c :: rest2 =>
        if valid3Second b c then
          match rest2 with
          | [] => .pending 0
          | d :: rest3 => if isCont d then addTo 3 (utf8Check rest3) else .bad
        else .bad
    else if 240 ≤ b ∧ b ≤ 244 then
      match rest with
      | [] => .pending 0
      | c :: rest2 =>
        if valid4Second b c then
          match rest2 with
          | [] => .pending 0
          | d :: rest3 =>
            if isCont d then
              match rest3 with
              | [] => .pending 0
              | e :: rest4 => if isCont e then addTo 4 (utf8Check rest4) else .bad
            else .bad
        else .bad
    else .bad

/-- Result of one iteration of the read loop of `is_valid_utf8`:
either the function returns (`done`) or the loop continues with new
carried bytes and remaining file contents (`next`). -/
inductive LoopStep where
  | done (result : Bool) : LoopStep
  | next (carried remaining : List Nat) : LoopStep
deriving DecidableEq, Repr

/-- One iteration of the loop in `is_valid_utf8` (src/main.rs:329-347).
`carried` is `buf[..offset]`, the bytes carried over from the previous
iteration; `remaining` is the unread rest of the file.  The `read` call
into `buf[offset..]` is modelled as delivering
`remaining.take (128 - carried.length)` bytes (regular-file behaviour:
the buffer is filled as far as the file allows).  `bytes_read == 0`
returns `offset == 0`; a malformed sequence returns `false`; an
incomplete trailing sequence is carried over via `copy_within`. -/
def isValidUtf8Step (carried remaining : List Nat) : LoopStep :=
  if (remaining.take (128 - carried.length)).isEmpty then .done carried.isEmpty
  else
    match utf8Check (carried ++ remaining.take (128 - carried.length)) with
    | .ok => .next [] (remaining.drop (128 - carried.length))
    | .bad => .done false
    | .pending v =>
        .next ((carried ++ remaining.take (128 - carried.length)).drop v)
          (remaining.drop (128 - carried.length))

/-- The read loop of `is_valid_utf8`, iterating `isValidUtf8Step`. -/
def isValidUtf8Loop (carried remaining : List Nat) : Bool :=
  match h : isValidUtf8Step carried remaining with
  | .done b => b
  | .next c r => isValidUtf8Loop c r
termination_by remaining.length
decreasing_by
  unfold isValidUtf8Step at h
  by_cases he : (remaining.take (128 - carried.length)).isEmpty
  · simp [he] at h
  · have hne : remaining.take (128 - carried.length) ≠ [] := by
      intro hcon
      simp [hcon] at he
    have hrem : remaining ≠ [] := by
      intro hcon
      exact hne (by simp [hcon])
    have hsp : 128 - carried.length ≠ 0 := by
      intro hcon
      exact hne (by simp [hcon])
    have hr : r = remaining.drop (128 - carried.length) := by
      simp only [if_neg he] at h
      rcases hc : utf8Check (carried ++ remaining.take (128 - carried.length)) with _ | _ | v <;>
        rw [hc] at h <;> simp_all
    subst hr
    have hlen : 0 < remaining.length := List.length_pos.mpr hrem
    simp only [List.length_drop]
    omega

/-- The function `is_valid_utf8` (src/main.rs:329-347), applied to the
whole byte content of the file at the given path. -/
def is_valid_utf8 (content : List Nat) : Bool := isValidUtf8Loop [] content

/-! Data model of the explorer: items, raw directory entries, the
`Fee` state and its configuration. -/

/-- The `ItemType` enum (src/main.rs:20-23). -/
inductive ItemType where
  | File : ItemType
  | Directory : ItemType
deriving DecidableEq, Repr

/-- The `Item` struct (src/main.rs:25-28). -/
structure Item where
  name : String
  item_type : ItemType
deriving DecidableEq, Repr

/-- Kind of a raw directory entry as reported by `file_type()`:
a plain file, a directory, or anything else (sockets, broken
symlinks, ...). -/
inductive RawKind where
  | file : RawKind
  | directory : RawKind
  | other : RawKind
deriving DecidableEq, Repr

/-- A raw `read_dir` entry.  `name` is `none` when `file_name().to_str()`
fails (the name is not representable as UTF-8 text).  `file_type()`
itself is assumed to succeed; entries whose enumeration failed are
already dropped by `.flatten()` in the source and are not modelled. -/
structure RawEntry where
  name : Option String
  kind : RawKind
deriving DecidableEq, Repr

/-- The loop of `get_cwd_contents` (src/main.rs:101-120): `dirs` and
`files` accumulate pushed items; a name that is not valid text aborts
the whole listing with an error (the source message says
`Couldn't get filename of item.`). -/
def getCwdContentsLoop : List RawEntry → List Item → List Item → Except String (List Item)
  | [], dirs, files => .ok (dirs ++ files)
  | e :: rest, dirs, files =>
    match e.name with
    | none => .error "Could not get filename of item."
    | some n =>
      match e.kind with
      | RawKind.directory => getCwdContentsLoop rest (dirs ++ [⟨n, ItemType.Directory⟩]) files
      | RawKind.file => getCwdContentsLoop rest dirs (files ++ [⟨n, ItemType.File⟩])
      | RawKind.other => getCwdContentsLoop rest dirs files

/-- The function `get_cwd_contents` (src/main.rs:97-124), applied to the
raw enumeration of the current directory. -/
def get_cwd_contents (entries : List RawEntry) : Except String (List Item) :=
  getCwdContentsLoop entries [] []

/-- The directory entries of a raw enumeration, in enumeration order,
as items. -/
def dirItems (entries : List RawEntry) : List Item :=
  entries.filterMap fun e =>
    match e.kind, e.name with
    | RawKind.directory, some n => some ⟨n, ItemType.Directory⟩
    | _, _ => none

/-- The plain-file entries of a raw enumeration, in enumeration order,
as items. -/
def fileItems (entries : List RawEntry) : List Item :=
  entries.filterMap fun e =>
    match e.kind, e.name with
    | RawKind.file, some n => some ⟨n, ItemType.File⟩
    | _, _ => none

/-- The `Config` struct (src/main.rs:305-312); the color fields only
feed the renderer and are omitted. -/
structure Config where
  text_editor_command : List String
  binary_editor_command : List String
  wait_for_editor_exit : Bool
deriving DecidableEq, Repr

/-- The mutable navigation fields of the `Fee` struct (src/main.rs:38-46).
`cwd` is the `PathBuf` as a list of components; `selection` and `scroll`
are the `u16` fields as natural numbers. -/
structure FeeState where
  cwd : List String
  selection : Nat
  scroll : Nat
  current_contents : List Item
deriving DecidableEq, Repr

/-! `u16`/`i16` arithmetic as performed by the source.  Casts (`as u16`,
`as i16`) truncate; `+`/`-` are checked (they panic on overflow when
overflow checks are enabled, the Rust debug default), modelled as
`Option`-valued operations returning `none` on overflow. -/

/-- Value of a `usize as u16` cast. -/
def u16ofNat (n : Nat) : Nat := n % 65536

/-- Checked `u16` subtraction. -/
def checkedSubU16 (a b : Nat) : Option Nat := if b ≤ a then some (a - b) else none

/-- Checked `u16` addition. -/
def checkedAddU16 (a b : Nat) : Option Nat := if a + b < 65536 then some (a + b) else none

/-- Value of an `as i16` cast of an unsigned value: low 16 bits,
interpreted as two's complement. -/
def toI16 (n : Nat) : Int :=
  if n % 65536 < 32768 then (n % 65536 : Int) else (n % 65536 : Int) - 65536

/-- Checked `i16` subtraction. -/
def checkedSubI16 (a b : Int) : Option Int :=
  if -32768 ≤ a - b ∧ a - b ≤ 32767 then some (a - b) else none

/-- The method `move_up` (src/main.rs:243-257).  `H` is the value of
`get_terminal_height()` (terminal rows minus one).  On wraparound the
new scroll is `cmp::max(0, len as i16 - H as i16) as u16`. -/
def move_up (H : Nat) (st : FeeState) : Option FeeState :=
  if st.selection = 0 then
    match checkedSubU16 (u16ofNat st.current_contents.length) 1 with
    | none => none
    | some sel =>
      match checkedSubI16 (toI16 st.current_contents.length) (toI16 H) with
      | none => none
      | some d => some { st with selection := sel, scroll := (max 0 d).toNat }
  else
    match checkedSubU16 st.selection 1 with
    | none => none
    | some sel =>
      if sel < st.scroll then
        match checkedSubU16 st.scroll 1 with
        | none => none
        | some sc => some { st with selection := sel, scroll := sc }
      else some { st with selection := sel }

/-- The method `move_down` (src/main.rs:258-269).  `H` is the value of
`get_terminal_height()`. -/
def move_down (H : Nat) (st : FeeState) : Option FeeState :=
  match checkedSubU16 (u16ofNat st.current_contents.length) 1 with
  | none => none
  | some lastIdx =>
    if lastIdx ≤ st.selection then some { st with selection := 0, scroll := 0 }
    else
      match checkedAddU16 st.selection 1 with
      | none => none
      | some sel =>
        match checkedSubU16 sel st.scroll with
        | none => none
        | some diff =>
          if H ≤ diff then
            match checkedAddU16 st.scroll 1 with
            | none => none
            | some sc => some { st with selection := sel, scroll := sc }
          else some { st with selection := sel }

/-- Observable side effects of `select`: running the UTF-8 probe on a
file, spawning the editor process, and reloading the listing from disk
(the reload done by `prepare_terminal`, src/main.rs:82, or by the
directory branch of `select`). -/
inductive Effect where
  | probe (path : List String) (result : Bool) : Effect
  | spawn (exe : String) (args : List String) : Effect
  | reload (path : List String) : Effect
deriving DecidableEq, Repr

/-- Rendering of a `PathBuf` by `to_str` (src/main.rs:199-201),
modelled as joining the components; component names are assumed to be
valid text, so the conversion never fails here. -/
def pathToStr (p : List String) : String := String.intercalate "/" p

/-- The `parts` loop and `pop_front` of `select` (src/main.rs:203-214):
each token equal to `$f` is replaced by the file path, the first
resulting token is the executable and the rest are its arguments;
an empty token list yields no invocation. -/
def buildInvocation (command : List String) (filepath : String) : Option (String × List String) :=
  match command.map (fun part => if part = "$f" then filepath else part) with
  | [] => none
  | exe :: args => some (exe, args)

/-- The `ItemType::File` arm of `select` (src/main.rs:185-226).
`fs` gives the raw enumeration of a directory (used by the
`prepare_terminal` reload after the editor ran); `fileBytes` gives a
file's content for the UTF-8 probe.  The probe runs only when the two
editor command templates differ; when no executable results (empty
template) nothing else happens. -/
def selectFile (cfg : Config) (fs : List String → List RawEntry)
    (fileBytes : List String → List Nat) (st : FeeState) (name : String) :
    Except String (FeeState × List Effect) :=
  let filepath := st.cwd ++ [name]
  let probed :=
    if cfg.text_editor_command = cfg.binary_editor_command then none
    else some (is_valid_utf8 (fileBytes filepath))
  let command :=
    match probed with
    | some false => cfg.binary_editor_command
    | _ => cfg.text_editor_command
  let probeEff :=
    match probed with
    | some r => [Effect.probe filepath r]
    | none => ([] : List Effect)
  match buildInvocation command (pathToStr filepath) with
  | none => .ok (st, probeEff)
  | some (exe, args) =>
    match get_cwd_contents (fs st.cwd) with
    | .error e => .error e
    | .ok contents =>
      .ok ({ st with current_contents := contents },
        probeEff ++ [Effect.spawn exe args, Effect.reload st.cwd])

/-- The `for (index, item) in ... enumerate()` loop of `select`
(src/main.rs:176-230).  The comparison `index as u16 == self.selection`
truncates the `usize` index. -/
def selectLoop (cfg : Config) (fs : List String → List RawEntry)
    (fileBytes : List String → List Nat) (st : FeeState) :
    Nat → List Item → Except String (FeeState × List Effect)
  | _, [] => .ok (st, [])
  | i, item :: rest =>
    if i % 65536 = st.selection then
      match item.item_type with
      | ItemType.Directory =>
        match get_cwd_contents (fs (st.cwd ++ [item.name])) with
        | .error e => .error e
        | .ok contents =>
          .ok ({ st with
                  cwd := st.cwd ++ [item.name],
                  selection := 0,
                  scroll := 0,
                  current_contents := contents }, [Effect.reload (st.cwd ++ [item.name])])
      | ItemType.File => selectFile cfg fs fileBytes st item.name
    else selectLoop cfg fs fileBytes st (i + 1) rest

/-- The method `select` (src/main.rs:175-232). -/
def select (cfg : Config) (fs : List String → List RawEntry)
    (fileBytes : List String → List Nat) (st : FeeState) :
    Except String (FeeState × List Effect) :=
  selectLoop cfg fs fileBytes st 0 st.current_contents

/-- The method `go_back` (src/main.rs:233-242).  `PathBuf::parent` is
`none` exactly when the path has no components. -/
def go_back (fs : List String → List RawEntry) (st : FeeState) : Except String FeeState :=
  match st.cwd with
  | [] => .ok st
  | _ =>
    match get_cwd_contents (fs st.cwd.dropLast) with
    | .error e => .error e
    | .ok contents =>
      .ok { st with
              cwd := st.cwd.dropLast,
              selection := 0,
              scroll := 0,
              current_contents := contents }

theorem isValidUtf8Step_next_length {carried remaining c r : List Nat}
    (h : isValidUtf8Step carried remaining = .next c r) : r.length < remaining.length := by
  unfold isValidUtf8Step at h
  by_cases he : (remaining.take (128 - carried.length)).isEmpty
  · simp [he] at h
  · have hne : remaining.take (128 - carried.length) ≠ [] := by
      intro hcon
      simp [hcon] at he
    have hrem : remaining ≠ [] := by
      intro hcon
      exact hne (by simp [hcon])
    have hsp : 128 - carried.length ≠ 0 := by
      intro hcon
      exact hne (by simp [hcon])
    have hr : r = remaining.drop (128 - carried.length) := by
      simp only [if_neg he] at h
      rcases hc : utf8Check (carried ++ remaining.take (128 - carried.length)) with _ | _ | v <;>
        rw [hc] at h <;> simp_all
    subst hr
    have hlen : 0 < remaining.length := List.length_pos.mpr hrem
    simp only [List.length_drop]
    omega

theorem addTo_zero (x : Utf8Check) : addTo 0 x = x := by
  cases x <;> simp [addTo]

theorem addTo_addTo (a b : Nat) (x : Utf8Check) : addTo a (addTo b x) = addTo (a + b) x := by
  cases x <;> simp [addTo] <;> omega

theorem addTo_eq_ok {w : Nat} {x : Utf8Check} : addTo w x = .ok ↔ x = .ok := by
  cases x <;> simp [addTo]

theorem addTo_eq_bad {w : Nat} {x : Utf8Check} : addTo w x = .bad ↔ x = .bad := by
  cases x <;> simp [addTo]

theorem addTo_eq_pending {w u : Nat} {x : Utf8Check} :
    addTo w x = .pending u ↔ ∃ v, x = .pending v ∧ u = v + w := by
  cases x <;> simp [addTo] <;> omega

/-- Unfolding equation of `utf8Check` for an arbitrary head and tail. -/
theorem utf8Check_cons (b : Nat) (rest : List Nat) :
    utf8Check (b :: rest) =
      if b < 128 then addTo 1 (utf8Check rest)
      else if 194 ≤ b ∧ b ≤ 223 then
        match rest with
        | [] => .pending 0
        | c :: rest2 => if isCont c then addTo 2 (utf8Check rest2) else .bad
      else if 224 ≤ b ∧ b ≤ 239 then
        match rest with
        | [] => .pending 0
        | c :: rest2 =>
          if valid3Second b c then
            match rest2 with
            | [] => .pending 0
            | d :: rest3 => if isCont d then addTo 3 (utf8Check rest3) else .bad
          else .bad
      else if 240 ≤ b ∧ b ≤ 244 then
        match rest with
        | [] => .pending 0
        | c :: rest2 =>
          if valid4Second b c then
            match rest2 with
            | [] => .pending 0
            | d :: rest3 =>
              if isCont d then
                match rest3 with
                | [] => .pending 0
                | e :: rest4 => if isCont e then addTo 4 (utf8Check rest4) else .bad
              else .bad
          else .bad
      else .bad := by
  rcases rest with _ | ⟨c, _ | ⟨d, _ | ⟨e, rest4⟩⟩⟩ <;> rfl

/-- A fully valid byte list is a clean char boundary: validation of any
extension proceeds past it unchanged (up to the offset shift). -/
theorem utf8Check_ok_append {p : List Nat} (q : List Nat) (h : utf8Check p = .ok) :
    utf8Check (p ++ q) = addTo p.length (utf8Check q) := by
  induction p using utf8Check.induct with
  | case1 => simp [addTo_zero]
  | case2 b rest hb ih =>
    simp only [utf8Check_cons, if_pos hb, addTo_eq_ok] at h
    simp only [List.cons_append, utf8Check_cons, if_pos hb, ih h, addTo_addTo, List.length_cons]
    congr 1
    omega
  | case3 b hb h2 => simp [utf8Check_cons, hb, h2] at h
  | case4 b hb h2 c rest hc ih =>
    simp [utf8Check_cons, hb, h2, hc, addTo_eq_ok] at h
    simp [List.cons_append, utf8Check_cons, hb, h2, hc, ih h, addTo_addTo]
    congr 1
    omega
  | case5 b hb h2 c rest hc => simp [utf8Check_cons, hb, h2, hc] at h
  | case6 b hb h2 h3 => simp [utf8Check_cons, hb, h2, h3] at h
  | case7 b hb h2 h3 c hc => simp [utf8Check_cons, hb, h2, h3, hc] at h
  | case8 b hb h2 h3 c hc d rest hd ih =>
    simp [utf8Check_cons, hb, h2, h3, hc, hd, addTo_eq_ok] at h
    simp [List.cons_append, utf8Check_cons, hb, h2, h3, hc, hd, ih h, addTo_addTo]
    congr 1
    omega
  | case9 b hb h2 h3 c hc d rest hd => simp [utf8Check_cons, hb, h2, h3, hc, hd] at h
  | case10 b hb h2 h3 c rest hc => simp [utf8Check_cons, hb, h2, h3, hc] at h
  | case11 b hb h2 h3 h4 => simp [utf8Check_cons, hb, h2, h3, h4] at h
  | case12 b hb h2 h3 h4 c hc => simp [utf8Check_cons, hb, h2, h3, h4, hc] at h
  | case13 b hb h2 h3 h4 c hc d hd => simp [utf8Check_cons, hb, h2, h3, h4, hc, hd] at h
  | case14 b hb h2 h3 h4 c hc d hd e rest he ih =>
    simp [utf8Check_cons, hb, h2, h3, h4, hc, hd, he, addTo_eq_ok] at h
    simp [List.cons_append, utf8Check_cons, hb, h2, h3, h4, hc, hd, he, ih h, addTo_addTo]
    congr 1
    omega
  | case15 b hb h2 h3 h4 c hc d hd e rest he =>
    simp [utf8Check_cons, hb, h2, h3, h4, hc, hd, he] at h
  | case16 b hb h2 h3 h4 c hc d rest hd => simp [utf8Check_cons, hb, h2, h3, h4, hc, hd] at h
  | case17 b hb h2 h3 h4 c rest hc => simp [utf8Check_cons, hb, h2, h3, h4, hc] at h
  | case18 b rest hb h2 h3 h4 => simp [utf8Check_cons, hb, h2, h3, h4] at h

/-- A malformed byte list stays malformed under any extension:
`error_len().is_some()` does not depend on later bytes. -/
theorem utf8Check_bad_append {p : List Nat} (q : List Nat) (h : utf8Check p = .bad) :
    utf8Check (p ++ q) = .bad := by
  induction p using utf8Check.induct with
  | case1 => simp [utf8Check] at h
  | case2 b rest hb ih =>
    simp [utf8Check_cons, hb, addTo_eq_bad] at h
    simp [List.cons_append, utf8Check_cons, hb, ih h, addTo_eq_bad]
  | case3 b hb h2 => simp [utf8Check_cons, hb, h2] at h
  | case4 b hb h2 c rest hc ih =>
    simp [utf8Check_cons, hb, h2, hc, addTo_eq_bad] at h
    simp [List.cons_append, utf8Check_cons, hb, h2, hc, ih h, addTo_eq_bad]
  | case5 b hb h2 c rest hc =>
    simp [List.cons_append, utf8Check_cons, hb, h2, hc]
  | case6 b hb h2 h3 => simp [utf8Check_cons, hb, h2, h3] at h
  | case7 b hb h2 h3 c hc => simp [utf8Check_cons, hb, h2, h3, hc] at h
  | case8 b hb h2 h3 c hc d rest hd ih =>
    simp [utf8Check_cons, hb, h2, h3, hc, hd, addTo_eq_bad] at h
    simp [List.cons_append, utf8Check_cons, hb, h2, h3, hc, hd, ih h, addTo_eq_bad]
  | case9 b hb h2 h3 c hc d rest hd =>
    simp [List.cons_append, utf8Check_cons, hb, h2, h3, hc, hd]
  | case10 b hb h2 h3 c rest hc =>
    simp [List.cons_append, utf8Check_cons, hb, h2, h3, hc]
  | case11 b hb h2 h3 h4 => simp [utf8Check_cons, hb, h2, h3, h4] at h
  | case12 b hb h2 h3 h4 c hc => simp [utf8Check_cons, hb, h2, h3, h4, hc] at h
  | case13 b hb h2 h3 h4 c hc d hd => simp [utf8Check_cons, hb, h2, h3, h4, hc, hd] at h
  | case14 b hb h2 h3 h4 c hc d hd e rest he ih =>
    simp [utf8Check_cons, hb, h2, h3, h4, hc, hd, he, addTo_eq_bad] at h
    simp [List.cons_append, utf8Check_cons, hb, h2, h3, h4, hc, hd, he, ih h, addTo_eq_bad]
  | case15 b hb h2 h3 h4 c hc d hd e rest he =>
    simp [List.cons_append, utf8Check_cons, hb, h2, h3, h4, hc, hd, he]
  | case16 b hb h2 h3 h4 c hc d rest hd =>
    simp [List.cons_append, utf8Check_cons, hb, h2, h3, h4, hc, hd]
  | case17 b hb h2 h3 h4 c rest hc =>
    simp [List.cons_append, utf8Check_cons, hb, h2, h3, h4, hc]
  | case18 b rest hb h2 h3 h4 =>
    simp [List.cons_append, utf8Check_cons, hb, h2, h3, h4]

/-- An input ending in an incomplete sequence splits at `valid_up_to`:
a fully valid front part and a pending tail of one to three bytes.
This is exactly what the `copy_within` branch of `is_valid_utf8`
relies on. -/
theorem utf8Check_pending_decompose {p : List Nat} {v : Nat} (h : utf8Check p = .pending v) :
    v ≤ p.length ∧ utf8Check (p.take v) = .ok ∧ utf8Check (p.drop v) = .pending 0 ∧
      1 ≤ p.length - v ∧ p.length - v ≤ 3 := by
  induction p using utf8Check.induct generalizing v with
  | case1 => simp [utf8Check] at h
  | case2 b rest hb ih =>
    rw [utf8Check_cons, if_pos hb, addTo_eq_pending] at h
    obtain ⟨v0, hv0, rfl⟩ := h
    obtain ⟨hle, htake, hdrop, hg1, hl3⟩ := ih hv0
    refine ⟨by simp; omega, ?_, ?_, by simp; omega, by simp; omega⟩
    · simp [List.take_succ_cons, utf8Check_cons, hb, addTo_eq_ok, htake]
    · simpa [List.drop_succ_cons] using hdrop
  | case3 b hb h2 =>
    rw [utf8Check_cons, if_neg hb, if_pos h2] at h
    simp only [Utf8Check.pending.injEq] at h
    subst h
    exact ⟨by simp, by simp [utf8Check], by simp [utf8Check_cons, hb, h2], by simp, by simp⟩
  | case4 b hb h2 c rest hc ih =>
    have hstep : utf8Check (b :: c :: rest) = addTo 2 (utf8Check rest) := by
      simp [utf8Check_cons, hb, h2, hc]
    rw [hstep, addTo_eq_pending] at h
    obtain ⟨v0, hv0, rfl⟩ := h
    obtain ⟨hle, htake, hdrop, hg1, hl3⟩ := ih hv0
    have e2 : v0 + 2 = v0 + 1 + 1 := rfl
    refine ⟨by simp; omega, ?_, ?_, by simp; omega, by simp; omega⟩
    · simp [e2, List.take_succ_cons, utf8Check_cons, hb, h2, hc, addTo_eq_ok, htake]
    · simpa [e2, List.drop_succ_cons] using hdrop
  | case5 b hb h2 c rest hc => simp [utf8Check_cons, hb, h2, hc] at h
  | case6 b hb h2 h3 =>
    rw [utf8Check_cons, if_neg hb, if_neg h2, if_pos h3] at h
    simp only [Utf8Check.pending.injEq] at h
    subst h
    exact ⟨by simp, by simp [utf8Check], by simp [utf8Check_cons, hb, h2, h3], by simp, by simp⟩
  | case7 b hb h2 h3 c hc =>
    have hstep : utf8Check [b, c] = .pending 0 := by
      simp [utf8Check_cons, hb, h2, h3, hc]
    rw [hstep] at h
    simp only [Utf8Check.pending.injEq] at h
    subst h
    exact ⟨by simp, by simp [utf8Check], by simpa using hstep, by simp, by simp⟩
  | case8 b hb h2 h3 c hc d rest hd ih =>
    have hstep : utf8Check (b :: c :: d :: rest) = addTo 3 (utf8Check rest) := by
      simp [utf8Check_cons, hb, h2, h3, hc, hd]
    rw [hstep, addTo_eq_pending] at h
    obtain ⟨v0, hv0, rfl⟩ := h
    obtain ⟨hle, htake, hdrop, hg1, hl3⟩ := ih hv0
    have e3 : v0 + 3 = v0 + 1 + 1 + 1 := rfl
    refine ⟨by simp; omega, ?_, ?_, by simp; omega, by simp; omega⟩
    · simp [e3, List.take_succ_cons, utf8Check_cons, hb, h2, h3, hc, hd, addTo_eq_ok, htake]
    · simpa [e3, List.drop_succ_cons] using hdrop
  | case9 b hb h2 h3 c hc d rest hd => simp [utf8Check_cons, hb, h2, h3, hc, hd] at h
  | case10 b hb h2 h3 c rest hc => simp [utf8Check_cons, hb, h2, h3, hc] at h
  | case11 b hb h2 h3 h4 =>
    rw [utf8Check_cons, if_neg hb, if_neg h2, if_neg h3, if_pos h4] at h
    simp only [Utf8Check.pending.injEq] at h
    subst h
    exact ⟨by simp, by simp [utf8Check], by simp [utf8Check_cons, hb, h2, h3, h4], by simp, by simp⟩
  | case12 b hb h2 h3 h4 c hc =>
    have hstep : utf8Check [b, c] = .pending 0 := by
      simp [utf8Check_cons, hb, h2, h3, h4, hc]
    rw [hstep] at h
    simp only [Utf8Check.pending.injEq] at h
    subst h
    exact ⟨by simp, by simp [utf8Check], by simpa using hstep, by simp, by simp⟩
  | case13 b hb h2 h3 h4 c hc d hd =>
    have hstep : utf8Check [b, c, d] = .pending 0 := by
      simp [utf8Check_cons, hb, h2, h3, h4, hc, hd]
    rw [hstep] at h
    simp only [Utf8Check.pending.injEq] at h
    subst h
    exact ⟨by simp, by simp [utf8Check], by simpa using hstep, by simp, by simp⟩
  | case14 b hb h2 h3 h4 c hc d hd e rest he ih =>
    have hstep : utf8Check (b :: c :: d :: e :: rest) = addTo 4 (utf8Check rest) := by
      simp [utf8Check_cons, hb, h2, h3, h4, hc, hd, he]
    rw [hstep, addTo_eq_pending] at h
    obtain ⟨v0, hv0, rfl⟩ := h
    obtain ⟨hle, htake, hdrop, hg1, hl3⟩ := ih hv0
    have e4 : v0 + 4 = v0 + 1 + 1 + 1 + 1 := rfl
    refine ⟨by simp; omega, ?_, ?_, by simp; omega, by simp; omega⟩
    · simp [e4, List.take_succ_cons, utf8Check_cons, hb, h2, h3, h4, hc, hd, he,
        addTo_eq_ok, htake]
    · simpa [e4, List.drop_succ_cons] using hdrop
  | case15 b hb h2 h3 h4 c hc d hd e rest he =>
    simp [utf8Check_cons, hb, h2, h3, h4, hc, hd, he] at h
  | case16 b hb h2 h3 h4 c hc d rest hd =>
    simp [utf8Check_cons, hb, h2, h3, h4, hc, hd] at h
  | case17 b hb h2 h3 h4 c rest hc => simp [utf8Check_cons, hb, h2, h3, h4, hc] at h
  | case18 b rest hb h2 h3 h4 => simp [utf8Check_cons, hb, h2, h3, h4] at h

/-- Appending more input to an input ending in an incomplete sequence
validates like the pending tail with the new input attached. -/
theorem utf8Check_pending_append {p : List Nat} {v : Nat} (q : List Nat)
    (h : utf8Check p = .pending v) :
    utf8Check (p ++ q) = addTo v (utf8Check (p.drop v ++ q)) := by
  obtain ⟨hle, htake, hdrop, hg1, hl3⟩ := utf8Check_pending_decompose h
  have hsplit : p ++ q = p.take v ++ (p.drop v ++ q) := by
    rw [← List.append_assoc, List.take_append_drop]
  rw [hsplit, utf8Check_ok_append _ htake, List.length_take]
  congr 1
  omega

theorem isValidUtf8Loop_done {carried remaining : List Nat} {b : Bool}
    (h : isValidUtf8Step carried remaining = .done b) :
    isValidUtf8Loop carried remaining = b := by
  rw [isValidUtf8Loop.eq_def]
  split <;> simp_all

theorem isValidUtf8Loop_next {carried remaining c r : List Nat}
    (h : isValidUtf8Step carried remaining = .next c r) :
    isValidUtf8Loop carried remaining = isValidUtf8Loop c r := by
  rw [isValidUtf8Loop.eq_def]
  split <;> simp_all

theorem isValidUtf8Step_done_cases {carried remaining : List Nat} {b : Bool}
    (h3 : carried.length ≤ 3) (h : isValidUtf8Step carried remaining = .done b) :
    (remaining = [] ∧ b = carried.isEmpty) ∨
      (b = false ∧ utf8Check (carried ++ remaining.take (128 - carried.length)) = .bad) := by
  unfold isValidUtf8Step at h
  by_cases he : (remaining.take (128 - carried.length)).isEmpty
  · rw [if_pos he] at h
    injection h with hb
    left
    constructor
    · cases hrem : remaining with
      | nil => rfl
      | cons a as =>
        exfalso
        obtain ⟨k, hk⟩ : ∃ k, 128 - carried.length = k + 1 := ⟨127 - carried.length, by omega⟩
        rw [hrem, hk, List.take_succ_cons] at he
        simp at he
    · exact hb.symm
  · rw [if_neg he] at h
    rcases hbuf : utf8Check (carried ++ remaining.take (128 - carried.length)) with _ | _ | v <;>
      rw [hbuf] at h
    · exact absurd h (by simp)
    · injection h with hb
      exact Or.inr ⟨hb.symm, rfl⟩
    · exact absurd h (by simp)

theorem isValidUtf8Step_next_cases {carried remaining c r : List Nat}
    (h : isValidUtf8Step carried remaining = .next c r) :
    r = remaining.drop (128 - carried.length) ∧
      ((c = [] ∧ utf8Check (carried ++ remaining.take (128 - carried.length)) = .ok) ∨
       (∃ v, utf8Check (carried ++ remaining.take (128 - carried.length)) = .pending v ∧
          c = (carried ++ remaining.take (128 - carried.length)).drop v)) := by
  unfold isValidUtf8Step at h
  by_cases he : (remaining.take (128 - carried.length)).isEmpty
  · rw [if_pos he] at h
    exact absurd h (by simp)
  · rw [if_neg he] at h
    rcases hbuf : utf8Check (carried ++ remaining.take (128 - carried.length)) with _ | _ | v <;>
      rw [hbuf] at h
    · injection h with h1 h2
      exact ⟨h2.symm, Or.inl ⟨h1.symm, rfl⟩⟩
    · exact absurd h (by simp)
    · injection h with h1 h2
      exact ⟨h2.symm, Or.inr ⟨v, rfl, h1.symm⟩⟩

theorem isValidUtf8Loop_done_iff {carried remaining : List Nat} {b : Bool}
    (h3 : carried.length ≤ 3) (hinv : carried = [] ∨ utf8Check carried = .pending 0)
    (hstep : isValidUtf8Step carried remaining = .done b) :
    (b = true ↔ utf8Check (carried ++ remaining) = .ok) := by
  rcases isValidUtf8Step_done_cases h3 hstep with ⟨hrem, hb⟩ | ⟨hb, hbad⟩
  · subst hrem
    subst hb
    rcases hinv with hc | hp
    · subst hc
      simp [utf8Check]
    · have hne : carried ≠ [] := by
        intro hc
        rw [hc] at hp
        simp [utf8Check] at hp
      rw [List.append_nil, hp]
      simp [List.isEmpty_iff, hne]
  · subst hb
    have hsplit : carried ++ remaining =
        (carried ++ remaining.take (128 - carried.length)) ++
          remaining.drop (128 - carried.length) := by
      rw [List.append_assoc, List.take_append_drop]
    rw [hsplit, utf8Check_bad_append _ hbad]
    simp

theorem isValidUtf8Loop_eq_ok : ∀ (n : Nat) (remaining carried : List Nat),
    remaining.length ≤ n → carried.length ≤ 3 →
    (carried = [] ∨ utf8Check carried = .pending 0) →
    (isValidUtf8Loop carried remaining = true ↔ utf8Check (carried ++ remaining) = .ok) := by
  intro n
  induction n with
  | zero =>
    intro remaining carried hn h3 hinv
    rcases hstep : isValidUtf8Step carried remaining with b | ⟨c, r⟩
    · rw [isValidUtf8Loop_done hstep]
      exact isValidUtf8Loop_done_iff h3 hinv hstep
    · exact absurd (isValidUtf8Step_next_length hstep) (by omega)
  | succ n ih =>
    intro remaining carried hn h3 hinv
    rcases hstep : isValidUtf8Step carried remaining with b | ⟨c, r⟩
    · rw [isValidUtf8Loop_done hstep]
      exact isValidUtf8Loop_done_iff h3 hinv hstep
    · rw [isValidUtf8Loop_next hstep]
      obtain ⟨hr, hcases⟩ := isValidUtf8Step_next_cases hstep
      have hrlen : r.length ≤ n := by
        have := isValidUtf8Step_next_length hstep
        omega
      have hsplit : carried ++ remaining =
          (carried ++ remaining.take (128 - carried.length)) ++
            remaining.drop (128 - carried.length) := by
        rw [List.append_assoc, List.take_append_drop]
      rcases hcases with ⟨hc, hok⟩ | ⟨v, hpend, hc⟩
      · subst hc
        subst hr
        rw [ih _ _ hrlen (by simp) (Or.inl rfl)]
        rw [hsplit, utf8Check_ok_append _ hok]
        simp [addTo_eq_ok]
      · obtain ⟨hle, htake, hdrop, hg1, hl3⟩ := utf8Check_pending_decompose hpend
        subst hc
        subst hr
        have hclen :
            ((carried ++ remaining.take (128 - carried.length)).drop v).length ≤ 3 := by
          simp only [List.length_drop]
          omega
        rw [ih _ _ hrlen hclen (Or.inr hdrop)]
        rw [hsplit, utf8Check_pending_append _ hpend, addTo_eq_ok]

/-- C1: `is_valid_utf8` returns `true` exactly when the entire file
content is valid UTF-8: in particular the empty file yields `true`, a
two-byte character straddling the 128-byte chunk boundary (bytes 127
and 128) yields `true`, a truncated three-byte sequence at the very end
of a file longer than one chunk yields `false`, and a malformed byte
yields `false`. -/
theorem is_valid_utf8_iff_valid :
    (∀ content : List Nat, is_valid_utf8 content = true ↔ utf8Check content = .ok) ∧
    is_valid_utf8 [] = true ∧
    is_valid_utf8 (List.replicate 127 97 ++ [195, 169]) = true ∧
    is_valid_utf8 (List.replicate 130 97 ++ [226, 130]) = false ∧
    is_valid_utf8 [104, 105, 255] = false := by
  have hgen : ∀ content : List Nat, is_valid_utf8 content = true ↔ utf8Check content = .ok := by
    intro content
    have h := isValidUtf8Loop_eq_ok content.length content [] le_rfl (by simp) (Or.inl rfl)
    simpa [is_valid_utf8] using h
  refine ⟨hgen, ?_, ?_, ?_, ?_⟩
  · exact (hgen []).mpr (by decide)
  · exact (hgen _).mpr (by decide)
  · exact Bool.eq_false_iff.mpr fun hb =>
      (by decide : ¬ utf8Check (List.replicate 130 97 ++ [226, 130]) = .ok) ((hgen _).mp hb)
  · exact Bool.eq_false_iff.mpr fun hb =>
      (by decide : ¬ utf8Check [104, 105, 255] = .ok) ((hgen _).mp hb)

/-- C9: each iteration of the `is_valid_utf8` loop holds at most 128
bytes (the fixed buffer), and when the loop continues the new carried
suffix has at most 3 bytes, strictly less input remains (the loop is
well-founded on the remaining input), and the iteration consumed
`min (128 - carried) remaining` fresh bytes, which is at least
`min 125 remaining`. -/
theorem is_valid_utf8_step_bounded (carried remaining : List Nat)
    (h3 : carried.length ≤ 3) :
    carried.length + (remaining.take (128 - carried.length)).length ≤ 128 ∧
    (∀ c r, isValidUtf8Step carried remaining = .next c r →
      c.length ≤ 3 ∧ (c = [] ∨ utf8Check c = .pending 0) ∧ r.length < remaining.length ∧
        remaining.length - r.length = min (128 - carried.length) remaining.length ∧
        min 125 remaining.length ≤ remaining.length - r.length) := by
  constructor
  · simp only [List.length_take]
    omega
  · intro c r hstep
    obtain ⟨hr, hcases⟩ := isValidUtf8Step_next_cases hstep
    have hlt := isValidUtf8Step_next_length hstep
    have hrlen : r.length = remaining.length - (128 - carried.length) := by
      rw [hr, List.length_drop]
    refine ⟨?_, ?_, hlt, by omega, by omega⟩
    · rcases hcases with ⟨hc, _⟩ | ⟨v, hpend, hc⟩
      · simp [hc]
      · obtain ⟨hle, _, _, hg1, hl3⟩ := utf8Check_pending_decompose hpend
        rw [hc, List.length_drop]
        omega
    · rcases hcases with ⟨hc, _⟩ | ⟨v, hpend, hc⟩
      · exact Or.inl hc
      · obtain ⟨_, _, hdrop, _, _⟩ := utf8Check_pending_decompose hpend
        rw [hc]
        exact Or.inr hdrop

/-- Witness for C9 at a concrete 130-byte file and empty carried state. -/
theorem is_valid_utf8_step_bounded_witness :
    ([] : List Nat).length ≤ 3 ∧
    (([] : List Nat).length +
        ((List.replicate 130 (97 : Nat)).take (128 - ([] : List Nat).length)).length ≤ 128 ∧
      (∀ c r, isValidUtf8Step [] (List.replicate 130 (97 : Nat)) = .next c r →
        c.length ≤ 3 ∧ (c = [] ∨ utf8Check c = .pending 0) ∧
          r.length < (List.replicate 130 (97 : Nat)).length ∧
          (List.replicate 130 (97 : Nat)).length - r.length =
            min (128 - ([] : List Nat).length) (List.replicate 130 (97 : Nat)).length ∧
          min 125 (List.replicate 130 (97 : Nat)).length ≤
            (List.replicate 130 (97 : Nat)).length - r.length)) :=
  ⟨by decide, is_valid_utf8_step_bounded [] (List.replicate 130 97) (by decide)⟩

theorem checkedSubU16_eq_some {a b : Nat} (h : b ≤ a) : checkedSubU16 a b = some (a - b) := by
  unfold checkedSubU16
  exact if_pos h

theorem checkedAddU16_eq_some {a b : Nat} (h : a + b < 65536) :
    checkedAddU16 a b = some (a + b) := by
  unfold checkedAddU16
  exact if_pos h

theorem checkedSubI16_eq_some {a b : Int} (h1 : -32768 ≤ a - b) (h2 : a - b ≤ 32767) :
    checkedSubI16 a b = some (a - b) := by
  unfold checkedSubI16
  exact if_pos ⟨h1, h2⟩

theorem toI16_of_lt {n : Nat} (h : n < 32768) : toI16 n = (n : Int) := by
  unfold toI16
  rw [if_pos (show n % 65536 < 32768 by omega)]
  omega

/-- C2: with an empty listing both `move_up` and `move_down` evaluate
`current_contents.len() as u16 - 1`, i.e. `0u16 - 1`, which underflows:
the checked subtraction fails (`none`), the state is not left unchanged. -/
theorem move_empty_underflow :
    move_up 5 ⟨[], 0, 0, []⟩ = none ∧ move_down 5 ⟨[], 0, 0, []⟩ = none := by
  constructor <;> rfl

/-- Evaluation of the wraparound branch of `move_up` (selection 0). -/
theorem move_up_wrap_eval (H : Nat) (cwd : List String) (sc : Nat) (contents : List Item)
    (N : Nat) (hN : contents.length = N) (h1 : 1 ≤ N) (hN16 : N < 65536)
    (hr1 : -32768 ≤ toI16 N - toI16 H) (hr2 : toI16 N - toI16 H ≤ 32767) :
    move_up H ⟨cwd, 0, sc, contents⟩ =
      some ⟨cwd, N - 1, (max 0 (toI16 N - toI16 H)).toNat, contents⟩ := by
  rw [move_up]
  rw [if_pos rfl]
  have hu : u16ofNat (FeeState.mk cwd 0 sc contents).current_contents.length = N := by
    simp only [u16ofNat, hN]
    omega
  rw [hu, checkedSubU16_eq_some (by omega), hN, checkedSubI16_eq_some hr1 hr2]

/-- C3 counterexample: the wraparound scroll formula uses `as i16`
casts, so for a listing of 40000 entries and viewport height 2 the
code sets scroll to 0 (the cast of 40000 is negative), not
`max 0 (40000 - 2) = 39998`; and for 10 entries with viewport height
33000 it sets scroll to 32546, not `max 0 (10 - 33000) = 0`. -/
theorem move_wrap_scroll_counterexample :
    ((move_up 2 ⟨[], 0, 0, List.replicate 40000 ⟨"a", ItemType.File⟩⟩).map
        (fun s => (s.selection, s.scroll)) = some (39999, 0) ∧ 0 ≠ max 0 (40000 - 2)) ∧
    ((move_up 33000 ⟨[], 0, 0, List.replicate 10 ⟨"a", ItemType.File⟩⟩).map
        (fun s => (s.selection, s.scroll)) = some (9, 32546) ∧ 32546 ≠ max 0 (10 - 33000)) := by
  refine ⟨⟨?_, by norm_num⟩, ⟨?_, by norm_num⟩⟩
  · rw [move_up_wrap_eval 2 [] 0 _ 40000 (List.length_replicate _ _) (by norm_num) (by norm_num)
      (by norm_num [toI16]) (by norm_num [toI16])]
    norm_num [toI16]
  · rw [move_up_wrap_eval 33000 [] 0 _ 10 (List.length_replicate _ _) (by norm_num) (by norm_num)
      (by norm_num [toI16]) (by norm_num [toI16])]
    norm_num [toI16]
    rfl

/-- C4 counterexample: from the reachable state (selection 0, scroll 0)
of a 40000-entry listing with viewport height 3 — the invariant
`scroll ≤ selection < scroll + H` holds before — one Move-up yields
selection 39999 with scroll 0, violating `selection < scroll + H`;
and with 5 entries and viewport height 40000 one Move-up yields
scroll 25541 > selection 4, violating `scroll ≤ selection`. -/
theorem scroll_invariant_counterexample :
    ((0 ≤ 0 ∧ 0 < 0 + 3) ∧
      (move_up 3 ⟨[], 0, 0, List.replicate 40000 ⟨"a", ItemType.File⟩⟩).map
        (fun s => (s.selection, s.scroll)) = some (39999, 0) ∧ ¬ 39999 < 0 + 3) ∧
    ((0 ≤ 0 ∧ 0 < 0 + 40000) ∧
      (move_up 40000 ⟨[], 0, 0, List.replicate 5 ⟨"a", ItemType.File⟩⟩).map
        (fun s => (s.selection, s.scroll)) = some (4, 25541) ∧ ¬ 25541 ≤ 4) := by
  refine ⟨⟨⟨le_refl 0, by norm_num⟩, ?_, by norm_num⟩,
    ⟨⟨le_refl 0, by norm_num⟩, ?_, by norm_num⟩⟩
  · rw [move_up_wrap_eval 3 [] 0 _ 40000 (List.length_replicate _ _) (by norm_num) (by norm_num)
      (by norm_num [toI16]) (by norm_num [toI16])]
    norm_num [toI16]
  · rw [move_up_wrap_eval 40000 [] 0 _ 5 (List.length_replicate _ _) (by norm_num) (by norm_num)
      (by norm_num [toI16]) (by norm_num [toI16])]
    norm_num [toI16]
    rfl

/-- C3 (amended: listing count and viewport height below 32768, so the
`as i16` casts are exact; `max 0 (count - H)` is natural subtraction):
for a valid state of a non-empty listing, Move-up from selection 0
wraps to the last index with scroll `count - H` (truncated at zero);
Move-down from the last index wraps to selection 0 and scroll 0;
otherwise the selection moves by exactly one and the scroll changes by
at most one, the listing always untouched. -/
theorem move_step_spec (H : Nat) (st : FeeState)
    (hne : st.current_contents ≠ []) (hNb : st.current_contents.length < 32768)
    (hHb : H < 32768) (hsel : st.selection < st.current_contents.length)
    (hsc : st.scroll ≤ st.selection) :
    (st.selection = 0 → move_up H st =
      some { st with selection := st.current_contents.length - 1,
                     scroll := st.current_contents.length - H }) ∧
    (st.selection = st.current_contents.length - 1 →
      move_down H st = some { st with selection := 0, scroll := 0 }) ∧
    (st.selection ≠ 0 → ∃ st', move_up H st = some st' ∧
      st'.selection + 1 = st.selection ∧ st'.current_contents = st.current_contents ∧
      (st'.scroll = st.scroll ∨ st'.scroll + 1 = st.scroll)) ∧
    (st.selection ≠ st.current_contents.length - 1 → ∃ st', move_down H st = some st' ∧
      st'.selection = st.selection + 1 ∧ st'.current_contents = st.current_contents ∧
      (st'.scroll = st.scroll ∨ st'.scroll = st.scroll + 1)) := by
  have hpos : 0 < st.current_contents.length := List.length_pos.mpr hne
  have hu : u16ofNat st.current_contents.length = st.current_contents.length := by
    unfold u16ofNat
    omega
  refine ⟨?_, ?_, ?_, ?_⟩
  · intro h0
    have hsub1 : checkedSubU16 st.current_contents.length 1 =
        some (st.current_contents.length - 1) := checkedSubU16_eq_some (by omega)
    have hsub : checkedSubI16 (st.current_contents.length : Int) (H : Int) =
        some ((st.current_contents.length : Int) - H) := checkedSubI16_eq_some (by omega) (by omega)
    have hscr : (max 0 ((st.current_contents.length : Int) - (H : Int))).toNat =
        st.current_contents.length - H := by omega
    simp only [move_up, if_pos h0, hu, hsub1, toI16_of_lt hNb, toI16_of_lt hHb, hsub, hscr]
  · intro hlast
    have hsub1 : checkedSubU16 st.current_contents.length 1 =
        some (st.current_contents.length - 1) := checkedSubU16_eq_some (by omega)
    simp only [move_down, hu, hsub1,
      if_pos (show st.current_contents.length - 1 ≤ st.selection by omega)]
  · intro hne0
    have hs : checkedSubU16 st.selection 1 = some (st.selection - 1) :=
      checkedSubU16_eq_some (by omega)
    simp only [move_up, if_neg hne0, hs]
    by_cases hlt : st.selection - 1 < st.scroll
    · have hs2 : checkedSubU16 st.scroll 1 = some (st.scroll - 1) :=
        checkedSubU16_eq_some (by omega)
      simp only [if_pos hlt, hs2]
      exact ⟨_, rfl, by simp; omega, rfl, Or.inr (by simp; omega)⟩
    · simp only [if_neg hlt]
      exact ⟨_, rfl, by simp; omega, rfl, Or.inl rfl⟩
  · intro hnl
    have hsub1 : checkedSubU16 st.current_contents.length 1 =
        some (st.current_contents.length - 1) := checkedSubU16_eq_some (by omega)
    have hadd : checkedAddU16 st.selection 1 = some (st.selection + 1) :=
      checkedAddU16_eq_some (by omega)
    have hdiff : checkedSubU16 (st.selection + 1) st.scroll =
        some (st.selection + 1 - st.scroll) := checkedSubU16_eq_some (by omega)
    simp only [move_down, hu, hsub1,
      if_neg (show ¬ st.current_contents.length - 1 ≤ st.selection by omega), hadd, hdiff]
    by_cases hscr : H ≤ st.selection + 1 - st.scroll
    · have hadd2 : checkedAddU16 st.scroll 1 = some (st.scroll + 1) :=
        checkedAddU16_eq_some (by omega)
      simp only [if_pos hscr, hadd2]
      exact ⟨_, rfl, rfl, rfl, Or.inr rfl⟩
    · simp only [if_neg hscr]
      exact ⟨_, rfl, rfl, rfl, Or.inl rfl⟩

/-- Witness for C3 at a two-entry listing with viewport height 1. -/
theorem move_step_spec_witness :
    ([⟨"a", ItemType.File⟩, ⟨"b", ItemType.File⟩] : List Item) ≠ [] ∧
    ([⟨"a", ItemType.File⟩, ⟨"b", ItemType.File⟩] : List Item).length < 32768 ∧
    1 < 32768 ∧ (0 : Nat) < 2 ∧ (0 : Nat) ≤ 0 ∧
    move_up 1 ⟨[], 0, 0, [⟨"a", ItemType.File⟩, ⟨"b", ItemType.File⟩]⟩ =
      some ⟨[], 1, 1, [⟨"a", ItemType.File⟩, ⟨"b", ItemType.File⟩]⟩ :=
  ⟨by decide, by decide, by decide, by decide, by decide,
    (move_step_spec 1 ⟨[], 0, 0, [⟨"a", ItemType.File⟩, ⟨"b", ItemType.File⟩]⟩
      (by decide) (by decide) (by decide) (by decide) (by decide)).1 rfl⟩

/-- Any successful `select` either resets selection and scroll to 0
(directory activation) or leaves both unchanged (file activation or no
matching entry). -/
theorem selectLoop_sel_scroll (cfg : Config) (fs : List String → List RawEntry)
    (fileBytes : List String → List Nat) (st : FeeState) :
    ∀ (l : List Item) (i : Nat) (st' : FeeState) (effs : List Effect),
      selectLoop cfg fs fileBytes st i l = .ok (st', effs) →
      (st'.selection = 0 ∧ st'.scroll = 0) ∨
        (st'.selection = st.selection ∧ st'.scroll = st.scroll) := by
  intro l
  induction l with
  | nil =>
    intro i st' effs h
    rw [selectLoop] at h
    injection h with h'
    injection h' with h1 h2
    rw [← h1]
    exact Or.inr ⟨rfl, rfl⟩
  | cons item rest ih =>
    intro i st' effs h
    rw [selectLoop] at h
    by_cases hm : i % 65536 = st.selection
    · rw [if_pos hm] at h
      cases hit : item.item_type with
      | Directory =>
        rw [hit] at h
        cases hfs : get_cwd_contents (fs (st.cwd ++ [item.name])) with
        | error e =>
          rw [hfs] at h
          exact absurd h (by simp)
        | ok contents =>
          rw [hfs] at h
          injection h with h'
          injection h' with h1 h2
          rw [← h1]
          exact Or.inl ⟨rfl, rfl⟩
      | File =>
        rw [hit] at h
        simp only [selectFile] at h
        repeat' split at h
        all_goals
          first
            | (injection h with h'
               injection h' with h1 h2
               rw [← h1]
               exact Or.inr ⟨rfl, rfl⟩)
            | exact absurd h (by simp)
    · rw [if_neg hm] at h
      exact ih _ _ _ h

/-- Any successful `go_back` either resets selection and scroll to 0 or
leaves the whole state unchanged (path without parent). -/
theorem go_back_sel_scroll (fs : List String → List RawEntry) (st : FeeState) (st' : FeeState)
    (h : go_back fs st = .ok st') :
    (st'.selection = 0 ∧ st'.scroll = 0) ∨ st' = st := by
  rw [go_back] at h
  split at h
  · injection h with h'
    exact Or.inr h'.symm
  · split at h
    · exact absurd h (by simp)
    · injection h with h'
      rw [← h']
      exact Or.inl ⟨rfl, rfl⟩

/-- C4 (amended: listing count and viewport height below 32768, so the
`as i16` casts in the wraparound scroll are exact): for a state with a
non-empty listing satisfying `scroll ≤ selection < scroll + H` and
`selection < count`, with `1 ≤ H`, each navigation event — Move-up,
Move-down, Activate (`select`), Go-back — yields, when it succeeds, a
state again satisfying `scroll ≤ selection < scroll + H`. -/
theorem scroll_invariant_preserved (H : Nat) (st : FeeState) (cfg : Config)
    (fs : List String → List RawEntry) (fileBytes : List String → List Nat)
    (hH1 : 1 ≤ H) (hHb : H < 32768)
    (hne : st.current_contents ≠ []) (hNb : st.current_contents.length < 32768)
    (hsel : st.selection < st.current_contents.length)
    (hinv : st.scroll ≤ st.selection ∧ st.selection < st.scroll + H) :
    (∃ st', move_up H st = some st' ∧
      st'.scroll ≤ st'.selection ∧ st'.selection < st'.scroll + H) ∧
    (∃ st', move_down H st = some st' ∧
      st'.scroll ≤ st'.selection ∧ st'.selection < st'.scroll + H) ∧
    (∀ st' effs, select cfg fs fileBytes st = .ok (st', effs) →
      st'.scroll ≤ st'.selection ∧ st'.selection < st'.scroll + H) ∧
    (∀ st', go_back fs st = .ok st' →
      st'.scroll ≤ st'.selection ∧ st'.selection < st'.scroll + H) := by
  obtain ⟨hinv1, hinv2⟩ := hinv
  have hpos : 0 < st.current_contents.length := List.length_pos.mpr hne
  have hu : u16ofNat st.current_contents.length = st.current_contents.length := by
    unfold u16ofNat
    omega
  have hsub1 : checkedSubU16 st.current_contents.length 1 =
      some (st.current_contents.length - 1) := checkedSubU16_eq_some (by omega)
  refine ⟨?_, ?_, ?_, ?_⟩
  · by_cases h0 : st.selection = 0
    · have hsub : checkedSubI16 (st.current_contents.length : Int) (H : Int) =
          some ((st.current_contents.length : Int) - H) :=
        checkedSubI16_eq_some (by omega) (by omega)
      simp only [move_up, if_pos h0, hu, hsub1, toI16_of_lt hNb, toI16_of_lt hHb, hsub]
      refine ⟨_, rfl, ?_, ?_⟩ <;> simp <;> omega
    · have hs : checkedSubU16 st.selection 1 = some (st.selection - 1) :=
        checkedSubU16_eq_some (by omega)
      simp only [move_up, if_neg h0, hs]
      by_cases hlt : st.selection - 1 < st.scroll
      · have hs2 : checkedSubU16 st.scroll 1 = some (st.scroll - 1) :=
          checkedSubU16_eq_some (by omega)
        simp only [if_pos hlt, hs2]
        refine ⟨_, rfl, ?_, ?_⟩ <;> simp <;> omega
      · simp only [if_neg hlt]
        refine ⟨_, rfl, ?_, ?_⟩ <;> simp <;> omega
  · by_cases hw : st.current_contents.length - 1 ≤ st.selection
    · simp only [move_down, hu, hsub1, if_pos hw]
      refine ⟨_, rfl, ?_, ?_⟩ <;> simp <;> omega
    · have hadd : checkedAddU16 st.selection 1 = some (st.selection + 1) :=
        checkedAddU16_eq_some (by omega)
      have hdiff : checkedSubU16 (st.selection + 1) st.scroll =
          some (st.selection + 1 - st.scroll) := checkedSubU16_eq_some (by omega)
      simp only [move_down, hu, hsub1, if_neg hw, hadd, hdiff]
      by_cases hscr : H ≤ st.selection + 1 - st.scroll
      · have hadd2 : checkedAddU16 st.scroll 1 = some (st.scroll + 1) :=
          checkedAddU16_eq_some (by omega)
        simp only [if_pos hscr, hadd2]
        refine ⟨_, rfl, ?_, ?_⟩ <;> simp <;> omega
      · simp only [if_neg hscr]
        refine ⟨_, rfl, ?_, ?_⟩ <;> simp <;> omega
  · intro st' effs h
    rcases selectLoop_sel_scroll cfg fs fileBytes st _ _ _ _ h with ⟨h1, h2⟩ | ⟨h1, h2⟩
    · rw [h1, h2]
      omega
    · rw [h1, h2]
      omega
  · intro st' h
    rcases go_back_sel_scroll fs st st' h with ⟨h1, h2⟩ | rfl
    · rw [h1, h2]
      omega
    · omega

/-- Witness for C4 at a one-entry listing, viewport height 1, and a
trivial filesystem. -/
theorem scroll_invariant_preserved_witness :
    ((1 : Nat) ≤ 1 ∧ (1 : Nat) < 32768 ∧ ([⟨"a", ItemType.File⟩] : List Item) ≠ [] ∧
      ([⟨"a", ItemType.File⟩] : List Item).length < 32768 ∧ (0 : Nat) < 1 ∧
      ((0 : Nat) ≤ 0 ∧ (0 : Nat) < 0 + 1)) ∧
    ((∃ st', move_up 1 ⟨[], 0, 0, [⟨"a", ItemType.File⟩]⟩ = some st' ∧
        st'.scroll ≤ st'.selection ∧ st'.selection < st'.scroll + 1) ∧
      (∃ st', move_down 1 ⟨[], 0, 0, [⟨"a", ItemType.File⟩]⟩ = some st' ∧
        st'.scroll ≤ st'.selection ∧ st'.selection < st'.scroll + 1) ∧
      (∀ st' effs, select ⟨["nano", "$f"], ["hexedit", "$f"], true⟩ (fun _ => []) (fun _ => [])
          ⟨[], 0, 0, [⟨"a", ItemType.File⟩]⟩ = .ok (st', effs) →
        st'.scroll ≤ st'.selection ∧ st'.selection < st'.scroll + 1) ∧
      (∀ st', go_back (fun _ => []) ⟨[], 0, 0, [⟨"a", ItemType.File⟩]⟩ = .ok st' →
        st'.scroll ≤ st'.selection ∧ st'.selection < st'.scroll + 1)) :=
  ⟨⟨by decide, by decide, by decide, by decide, by decide, by decide, by decide⟩,
    scroll_invariant_preserved 1 ⟨[], 0, 0, [⟨"a", ItemType.File⟩]⟩
      ⟨["nano", "$f"], ["hexedit", "$f"], true⟩ (fun _ => []) (fun _ => [])
      (by decide) (by decide) (by decide) (by decide) (by decide) ⟨by decide, by decide⟩⟩

/-- Accumulator characterisation of the `get_cwd_contents` loop: when
every entry name is representable, the loop returns the accumulated
directories followed by the accumulated files. -/
theorem getCwdContentsLoop_eq_ok (entries : List RawEntry) :
    ∀ dirs files, (∀ e ∈ entries, e.name ≠ none) →
      getCwdContentsLoop entries dirs files =
        .ok ((dirs ++ dirItems entries) ++ (files ++ fileItems entries)) := by
  induction entries with
  | nil =>
    intro dirs files h
    simp [getCwdContentsLoop, dirItems, fileItems]
  | cons e rest ih =>
    intro dirs files h
    have hne := h e (by simp)
    have htail : ∀ x ∈ rest, x.name ≠ none := fun x hx => h x (by simp [hx])
    rcases hn : e.name with _ | n
    · exact absurd hn hne
    · rcases hk : e.kind with _ | _ | _ <;>
        simp only [getCwdContentsLoop, hn, hk] <;>
        rw [ih _ _ htail] <;>
        simp [dirItems, fileItems, List.filterMap_cons, hn, hk, List.append_assoc]

/-- C5: for a raw enumeration whose names are all representable,
`get_cwd_contents` succeeds and returns exactly the directory entries
(in raw enumeration order) followed by the plain-file entries (in raw
enumeration order); entries of any other kind are skipped, and the
output length is the number of directories plus the number of files. -/
theorem get_cwd_contents_partition (entries : List RawEntry)
    (h : ∀ e ∈ entries, e.name ≠ none) :
    get_cwd_contents entries = .ok (dirItems entries ++ fileItems entries) ∧
    (dirItems entries ++ fileItems entries).length =
      (entries.countP fun e => decide (e.kind = RawKind.directory)) +
      (entries.countP fun e => decide (e.kind = RawKind.file)) := by
  constructor
  · have hloop := getCwdContentsLoop_eq_ok entries [] [] h
    simpa [get_cwd_contents] using hloop
  · induction entries with
    | nil => simp [dirItems, fileItems]
    | cons e rest ih =>
      have hne := h e (by simp)
      have htail : ∀ x ∈ rest, x.name ≠ none := fun x hx => h x (by simp [hx])
      have ih' := ih htail
      rcases hn : e.name with _ | n
      · exact absurd hn hne
      · rcases hk : e.kind with _ | _ | _ <;>
          simp [dirItems, fileItems, List.filterMap_cons, List.countP_cons, hn, hk] at ih' ⊢ <;>
          omega

/-- Witness for C5: subdirectories `b`, `a` and files `z.txt`, `m.bin`
interleaved in raw enumeration order with a skipped special entry; the
browsing order is `b, a, z.txt, m.bin`. -/
theorem get_cwd_contents_partition_witness :
    (∀ e ∈ ([⟨some "b", RawKind.directory⟩, ⟨some "z.txt", RawKind.file⟩,
        ⟨some "a", RawKind.directory⟩, ⟨some "m.bin", RawKind.file⟩,
        ⟨some "sock", RawKind.other⟩] : List RawEntry), e.name ≠ none) ∧
    (get_cwd_contents [⟨some "b", RawKind.directory⟩, ⟨some "z.txt", RawKind.file⟩,
        ⟨some "a", RawKind.directory⟩, ⟨some "m.bin", RawKind.file⟩,
        ⟨some "sock", RawKind.other⟩] =
      .ok (dirItems [⟨some "b", RawKind.directory⟩, ⟨some "z.txt", RawKind.file⟩,
        ⟨some "a", RawKind.directory⟩, ⟨some "m.bin", RawKind.file⟩,
        ⟨some "sock", RawKind.other⟩] ++
        fileItems [⟨some "b", RawKind.directory⟩, ⟨some "z.txt", RawKind.file⟩,
        ⟨some "a", RawKind.directory⟩, ⟨some "m.bin", RawKind.file⟩,
        ⟨some "sock", RawKind.other⟩]) ∧
      (dirItems [⟨some "b", RawKind.directory⟩, ⟨some "z.txt", RawKind.file⟩,
        ⟨some "a", RawKind.directory⟩, ⟨some "m.bin", RawKind.file⟩,
        ⟨some "sock", RawKind.other⟩] ++
        fileItems [⟨some "b", RawKind.directory⟩, ⟨some "z.txt", RawKind.file⟩,
        ⟨some "a", RawKind.directory⟩, ⟨some "m.bin", RawKind.file⟩,
        ⟨some "sock", RawKind.other⟩]).length =
        (([⟨some "b", RawKind.directory⟩, ⟨some "z.txt", RawKind.file⟩,
        ⟨some "a", RawKind.directory⟩, ⟨some "m.bin", RawKind.file⟩,
        ⟨some "sock", RawKind.other⟩] : List RawEntry).countP
          fun e => decide (e.kind = RawKind.directory)) +
        (([⟨some "b", RawKind.directory⟩, ⟨some "z.txt", RawKind.file⟩,
        ⟨some "a", RawKind.directory⟩, ⟨some "m.bin", RawKind.file⟩,
        ⟨some "sock", RawKind.other⟩] : List RawEntry).countP
          fun e => decide (e.kind = RawKind.file))) ∧
    dirItems [⟨some "b", RawKind.directory⟩, ⟨some "z.txt", RawKind.file⟩,
        ⟨some "a", RawKind.directory⟩, ⟨some "m.bin", RawKind.file⟩,
        ⟨some "sock", RawKind.other⟩] ++
      fileItems [⟨some "b", RawKind.directory⟩, ⟨some "z.txt", RawKind.file⟩,
        ⟨some "a", RawKind.directory⟩, ⟨some "m.bin", RawKind.file⟩,
        ⟨some "sock", RawKind.other⟩] =
      [⟨"b", ItemType.Directory⟩, ⟨"a", ItemType.Directory⟩,
       ⟨"z.txt", ItemType.File⟩, ⟨"m.bin", ItemType.File⟩] :=
  ⟨by decide,
    get_cwd_contents_partition _ (by decide),
    by decide⟩

theorem getCwdContentsLoop_bad_name (entries : List RawEntry) :
    ∀ dirs files, (∃ e ∈ entries, e.name = none) →
      getCwdContentsLoop entries dirs files = .error "Could not get filename of item." := by
  induction entries with
  | nil =>
    intro dirs files h
    simp at h
  | cons e rest ih =>
    intro dirs files h
    rcases hn : e.name with _ | n
    · simp [getCwdContentsLoop, hn]
    · have hrest : ∃ x ∈ rest, x.name = none := by
        rcases h with ⟨x, hx, hxn⟩
        rcases List.mem_cons.mp hx with rfl | hx'
        · rw [hn] at hxn
          exact absurd hxn (by simp)
        · exact ⟨x, hx', hxn⟩
      rcases hk : e.kind with _ | _ | _ <;>
        simp only [getCwdContentsLoop, hn, hk] <;>
        exact ih _ _ hrest

/-- C8: if any enumerated entry of the directory — of whatever kind,
including kinds that would be skipped — has a name that is not
representable as text, `get_cwd_contents` fails for the whole listing
with an error, returning no partial listing. -/
theorem get_cwd_contents_bad_name (entries : List RawEntry)
    (h : ∃ e ∈ entries, e.name = none) :
    get_cwd_contents entries = .error "Could not get filename of item." :=
  getCwdContentsLoop_bad_name entries [] [] h

/-- Witness for C8: one good file entry followed by a special-kind
entry with an unrepresentable name. -/
theorem get_cwd_contents_bad_name_witness :
    (∃ e ∈ ([⟨some "a", RawKind.file⟩, ⟨none, RawKind.other⟩] : List RawEntry),
      e.name = none) ∧
    get_cwd_contents [⟨some "a", RawKind.file⟩, ⟨none, RawKind.other⟩] =
      .error "Could not get filename of item." :=
  ⟨⟨⟨none, RawKind.other⟩, by decide, rfl⟩,
    get_cwd_contents_bad_name _ ⟨⟨none, RawKind.other⟩, by decide, rfl⟩⟩

/-- C6: the built invocation substitutes the file path for each token
equal to `$f` and passes every other token through unchanged, position
by position; the first resulting token is the executable and the rest
are the arguments; a template with no `$f` token yields the literal
token list (the path is never appended); an empty template launches
nothing, and a non-empty one always launches. -/
theorem editor_substitution (template : List String) (fp : String) :
    (template = [] → buildInvocation template fp = none) ∧
    (template ≠ [] → ∃ exe args, buildInvocation template fp = some (exe, args)) ∧
    (∀ exe args, buildInvocation template fp = some (exe, args) →
      (exe :: args).length = template.length ∧
      (∀ i : Nat, (exe :: args)[i]? =
        (template[i]?).map fun t => if t = "$f" then fp else t) ∧
      ("$f" ∉ template → exe :: args = template)) ∧
    buildInvocation ["nano", "$f"] "/tmp/a.txt" = some ("nano", ["/tmp/a.txt"]) := by
  refine ⟨?_, ?_, ?_, by decide⟩
  · intro h
    subst h
    rfl
  · intro h
    cases template with
    | nil => exact absurd rfl h
    | cons t ts => exact ⟨_, _, rfl⟩
  · intro exe args h
    have hm : exe :: args = template.map fun t => if t = "$f" then fp else t := by
      cases htm : template.map (fun t => if t = "$f" then fp else t) with
      | nil =>
        rw [buildInvocation, htm] at h
        exact absurd h (by simp)
      | cons x xs =>
        rw [buildInvocation, htm] at h
        injection h with h'
        injection h' with h1 h2
        rw [← h1, ← h2]
    refine ⟨?_, ?_, ?_⟩
    · rw [hm, List.length_map]
    · intro i
      rw [hm, List.getElem?_map]
    · intro hmem
      rw [hm]
      have hfix : ∀ x ∈ template, (if x = "$f" then fp else x) = x := by
        intro x hx
        rw [if_neg]
        intro hc
        exact hmem (hc ▸ hx)
      calc template.map (fun t => if t = "$f" then fp else t) = template.map id :=
            List.map_congr_left (by simpa using hfix)
        _ = template := List.map_id _

/-- Witness for C6: the spec's example template plus a `$f`-free
one-token template. -/
theorem editor_substitution_witness :
    buildInvocation ["nano", "$f"] "/tmp/a.txt" = some ("nano", ["/tmp/a.txt"]) ∧
    (["vim"] : List String) ≠ [] ∧ buildInvocation ["vim"] "/x" = some ("vim", []) ∧
    "$f" ∉ (["vim"] : List String) ∧ ("vim" :: ([] : List String)) = ["vim"] :=
  ⟨(editor_substitution ["nano", "$f"] "/tmp/a.txt").2.2.2,
    by decide,
    by decide,
    by decide,
    ((editor_substitution ["vim"] "/x").2.2.1 "vim" [] (by decide)).2.2 (by decide)⟩

theorem selectLoop_cons_ne (cfg : Config) (fs : List String → List RawEntry)
    (fileBytes : List String → List Nat) (st : FeeState) (i : Nat) (item : Item)
    (rest : List Item) (h : ¬ i % 65536 = st.selection) :
    selectLoop cfg fs fileBytes st i (item :: rest) =
      selectLoop cfg fs fileBytes st (i + 1) rest := by
  rw [selectLoop, if_neg h]

/-- Entries whose (truncated) index differs from the selection are
skipped by the `select` loop. -/
theorem selectLoop_drop (cfg : Config) (fs : List String → List RawEntry)
    (fileBytes : List String → List Nat) (st : FeeState) :
    ∀ (d : Nat) (l : List Item) (i : Nat), d ≤ l.length →
      (∀ j, j < d → (i + j) % 65536 ≠ st.selection) →
      selectLoop cfg fs fileBytes st i l = selectLoop cfg fs fileBytes st (i + d) (l.drop d) := by
  intro d
  induction d with
  | zero =>
    intro l i _ _
    simp
  | succ d ih =>
    intro l i hd hj
    cases l with
    | nil => simp at hd
    | cons item rest =>
      rw [selectLoop_cons_ne cfg fs fileBytes st i item rest (by simpa using hj 0 (by omega))]
      rw [List.drop_succ_cons, (by omega : i + (d + 1) = i + 1 + d)]
      exact ih rest (i + 1) (by simpa using hd) (fun j hjd => by
        have hx := hj (j + 1) (by omega)
        rwa [(by omega : i + (j + 1) = i + 1 + j)] at hx)

/-- C7: when the entry at the selection index is a directory named `n`
and its listing loads successfully, `select` extends `cwd` with `n`,
resets selection and scroll to 0, and replaces the listing wholesale
with the new directory's contents (reloading it through the lister). -/
theorem select_directory (cfg : Config) (fs : List String → List RawEntry)
    (fileBytes : List String → List Nat) (st : FeeState) (n : String)
    (newContents : List Item) (hsel16 : st.selection < 65536)
    (hat : st.current_contents[st.selection]? = some ⟨n, ItemType.Directory⟩)
    (hfs : get_cwd_contents (fs (st.cwd ++ [n])) = .ok newContents) :
    select cfg fs fileBytes st =
      .ok ({ st with
              cwd := st.cwd ++ [n],
              selection := 0,
              scroll := 0,
              current_contents := newContents }, [Effect.reload (st.cwd ++ [n])]) := by
  obtain ⟨hlen, hval⟩ := List.getElem?_eq_some.mp hat
  rw [select, selectLoop_drop cfg fs fileBytes st st.selection st.current_contents 0 (by omega)
    (fun j hj => by
      rw [Nat.zero_add, Nat.mod_eq_of_lt (by omega)]
      omega)]
  rw [Nat.zero_add, List.drop_eq_getElem_cons hlen, hval, selectLoop,
    if_pos (Nat.mod_eq_of_lt hsel16), hfs]

/-- Witness for C7 at a one-entry listing holding a directory `d` whose
contents are a single file `x`. -/
theorem select_directory_witness :
    (0 : Nat) < 65536 ∧
    (([⟨"d", ItemType.Directory⟩] : List Item)[(0 : Nat)]? =
      some ⟨"d", ItemType.Directory⟩) ∧
    get_cwd_contents ((fun _ => [⟨some "x", RawKind.file⟩]) (["r"] ++ ["d"])) =
      .ok [⟨"x", ItemType.File⟩] ∧
    select ⟨["nano", "$f"], ["hexedit", "$f"], true⟩ (fun _ => [⟨some "x", RawKind.file⟩])
        (fun _ => []) ⟨["r"], 0, 0, [⟨"d", ItemType.Directory⟩]⟩ =
      .ok (⟨["r", "d"], 0, 0, [⟨"x", ItemType.File⟩]⟩, [Effect.reload ["r", "d"]]) :=
  ⟨by decide, by decide, rfl,
    select_directory ⟨["nano", "$f"], ["hexedit", "$f"], true⟩
      (fun _ => [⟨some "x", RawKind.file⟩]) (fun _ => [])
      ⟨["r"], 0, 0, [⟨"d", ItemType.Directory⟩]⟩ "d" [⟨"x", ItemType.File⟩]
      (by decide) (by decide) rfl⟩

/-- C10: when the listing is empty, or no entry index matches the
selection under the `as u16` truncation, `select` succeeds, changes
nothing, and produces no effect: no probe, no spawn, no reload. -/
theorem select_no_match (cfg : Config) (fs : List String → List RawEntry)
    (fileBytes : List String → List Nat) (st : FeeState)
    (h : st.current_contents = [] ∨
      ∀ j, j < st.current_contents.length → j % 65536 ≠ st.selection) :
    select cfg fs fileBytes st = .ok (st, []) := by
  have hall : ∀ j, j < st.current_contents.length → j % 65536 ≠ st.selection := by
    rcases h with he | h
    · intro j hj
      rw [he] at hj
      simp at hj
    · exact h
  rw [select, selectLoop_drop cfg fs fileBytes st st.current_contents.length
    st.current_contents 0 le_rfl (fun j hj => by simpa using hall j hj),
    List.drop_length st.current_contents, selectLoop]

/-- Witness for C10 at an empty listing. -/
theorem select_no_match_witness :
    (([] : List Item) = [] ∨
      ∀ j, j < ([] : List Item).length → j % 65536 ≠ 0) ∧
    select ⟨["nano", "$f"], ["hexedit", "$f"], true⟩ (fun _ => []) (fun _ => [])
        ⟨["r"], 0, 0, []⟩ = .ok (⟨["r"], 0, 0, []⟩, []) :=
  ⟨Or.inl rfl,
    select_no_match ⟨["nano", "$f"], ["hexedit", "$f"], true⟩ (fun _ => []) (fun _ => [])
      ⟨["r"], 0, 0, []⟩ (Or.inl rfl)⟩
